import Mathlib

/-!
Shallow embedding of the `geodatasets` catalog library
(`geodatasets/lib.py` and `geodatasets/api.py`).

Python dictionaries are modelled as association lists (`List (String × α)`)
with unique keys maintained by `dinsert` (insert-or-overwrite, preserving the
position of an overwritten key, appending a fresh key at the end — the
semantics of CPython `dict` assignment).  The catalog tree (`Bunch`, a dict
whose values are either nested `Bunch`es or `Dataset`s) is the mutual
inductive `Node`/`Bunch` below.  Exceptions are modelled with
`Except String`, the error payload being the exception message.
-/

set_option autoImplicit false

namespace Geodatasets

/-- A Python value as it occurs in the catalog definition: strings, numbers,
lists of strings (the `members` attribute) and nested JSON objects. -/
inductive Value where
  | str (s : String)
  | num (n : Int)
  | strList (l : List String)
  | obj (fields : List (String × Value))

/-- `geodatasets.Dataset`: a dict with attribute access, holding the fields of
one dataset.  Field order is the (insertion-ordered) dict order. -/
structure Dataset where
  fields : List (String × Value)

/-- CPython `dict` assignment `d[k] = v` on an association list with unique
keys: overwrite in place when the key is present, append otherwise. -/
def dinsert {α : Type} (l : List (String × α)) (k : String) (v : α) :
    List (String × α) :=
  match l with
  | [] => [(k, v)]
  | (k', v') :: rest =>
    if k' == k then (k, v) :: rest else (k', v') :: dinsert rest k v

/-- Building a `dict` from a sequence of key/value pairs (a dict comprehension
or a sequence of assignments): later pairs overwrite earlier ones. -/
def dictOf {α : Type} (ps : List (String × α)) : List (String × α) :=
  ps.foldl (fun acc p => dinsert acc p.1 p.2) []

/-- `QUERY_NAME_TRANSLATION = str.maketrans({x: "" for x in "., -_/"})`:
the characters deleted by the query normalization. -/
def QUERY_NAME_TRANSLATION : List Char := ['.', ',', ' ', '-', '_', '/']

/-- Python `s.translate(QUERY_NAME_TRANSLATION)`: delete every occurrence of
the characters of `"., -_/"`. -/
def translateQN (s : String) : String :=
  ⟨s.data.filter (fun c => !QUERY_NAME_TRANSLATION.contains c)⟩

/-- Python `s.lower()` (the catalog names are ASCII). -/
def lowerStr (s : String) : String := ⟨s.data.map Char.toLower⟩

/-- Python `s.upper()` (the catalog attributes are ASCII). -/
def upperStr (s : String) : String := ⟨s.data.map Char.toUpper⟩

/-- `s.translate(QUERY_NAME_TRANSLATION).lower()`: the normalized form used by
`Bunch.query_name` on both the query and every flattened name. -/
def normalizeQN (s : String) : String := lowerStr (translateQN s)

/-- Python `s.endswith(suffix)`. -/
def strEndsWith (s suffix : String) : Bool := decide (suffix.data <:+ s.data)

/-- Attribute access `d.name` / `d.filename` …, for a string-valued field of a
validated `Dataset` (validated datasets always carry their required string
fields; the `""` default is never reached on them). -/
def Dataset.strField (d : Dataset) (key : String) : String :=
  match d.fields.lookup key with
  | some (.str s) => s
  | _ => ""

/-- `dataset.name`. -/
def Dataset.nameStr (d : Dataset) : String := d.strField "name"

/-- `dataset.filename`. -/
def Dataset.filenameStr (d : Dataset) : String := d.strField "filename"

/-- `dataset.url`. -/
def Dataset.urlStr (d : Dataset) : String := d.strField "url"

mutual
/-- A value stored in a catalog `Bunch`: either a `Dataset` leaf or a nested
`Bunch` group. -/
inductive Node where
  | ds (d : Dataset)
  | bunch (b : Bunch)

/-- `geodatasets.Bunch`: the insertion-ordered dict of a catalog group, keyed
by short local name. -/
inductive Bunch where
  | nil
  | cons (key : String) (child : Node) (rest : Bunch)
end

mutual
/-- The recursion `_get_items` inside `Bunch.flatten`, as the depth-first list
of `(item.name, item)` pairs in visit order (children in insertion order). -/
def Node.items : Node → List (String × Dataset)
  | .ds d => [(d.nameStr, d)]
  | .bunch b => b.items

/-- Depth-first `(name, dataset)` pairs of a whole group, in visit order. -/
def Bunch.items : Bunch → List (String × Dataset)
  | .nil => []
  | .cons _ n rest => n.items ++ rest.items
end

/-- `Bunch.flatten`: the one-level dict `flat` built by inserting every
reachable dataset under its `name`, in depth-first visit order (so a
later-visited dataset overwrites an earlier one with the same name). -/
def Bunch.flatten (b : Bunch) : List (String × Dataset) :=
  dictOf b.items

/-- `Bunch.query_name`: normalize every flattened name and the query, then
exact lookup; raises `ValueError` (modelled as `.error msg`) on no match. -/
def Bunch.query_name (b : Bunch) (name : String) : Except String Dataset :=
  let xyz_flat_lower :=
    dictOf (b.flatten.map (fun p => (normalizeQN p.1, p.2)))
  let name_clean := normalizeQN name
  match xyz_flat_lower.lookup name_clean with
  | some d => .ok d
  | none => .error ("No matching item found for the query '" ++ name ++ "'.")

/-! ## Dataset construction (`Dataset.__init__`) -/

/-- The required attributes checked by `Dataset.__init__`. -/
def requiredAttrs : List String := ["name", "url", "hash", "filename"]

/-- The attributes of `required` absent from the field dict, in the order the
loop over `required` visits them. -/
def missingAttrs (fields : List (String × Value)) : List String :=
  requiredAttrs.filter (fun k => !fields.any (fun p => p.1 == k))

/-- Python `sep.join(parts)`. -/
def joinSep (sep : String) : List String → String
  | [] => ""
  | [x] => x
  | x :: xs => x ++ sep ++ joinSep sep xs

/-- The `AttributeError` message raised by `Dataset.__init__`, naming every
missing required attribute. -/
def initErrorMsg (missing : List String) : String :=
  "The attributes ['name', 'url', 'hash', 'filename'] are required to " ++
    "initialise a `Dataset`. Please provide values for: `" ++
    joinSep "`, `" missing ++ "`"

/-- `Dataset(fields)`: validating construction.  Returns the dataset when all
of `name`, `url`, `hash`, `filename` are present, otherwise raises
`AttributeError` listing every missing attribute. -/
def Dataset.init (fields : List (String × Value)) : Except String Dataset :=
  if missingAttrs fields = [] then .ok ⟨fields⟩
  else .error (initErrorMsg (missingAttrs fields))

/-- `Dataset.__call__(self, **kwargs)`: copy, then `new.update(kwargs)`. -/
def Dataset.callD (d : Dataset) (kwargs : List (String × Value)) : Dataset :=
  ⟨kwargs.foldl (fun acc p => dinsert acc p.1 p.2) d.fields⟩

/-- `Dataset.copy(self, **kwargs)`: takes a copy preserving the class — and
returns it without ever touching `kwargs`. -/
def Dataset.copyD (d : Dataset) (kwargs : List (String × Value)) : Dataset :=
  ⟨d.fields⟩

/-! ## Filtering (`Bunch.filter`) -/

/-- Python `sub.lower() in s.lower()` (case-insensitive substring test). -/
def strInCI (sub s : String) : Bool :=
  decide ((lowerStr sub).data <:+: (lowerStr s).data)

/-- The keyword/name/geometry-type arguments of `Bunch.filter` (`none` means
the argument was not supplied). -/
structure FilterCond where
  keyword : Option String := none
  nameq : Option String := none
  geometry_type : Option String := none

/-- The `keyword` sub-condition of `_validate`: some string value of the
dataset contains the keyword, case-insensitively. -/
def keywordMatch (kw : String) (d : Dataset) : Bool :=
  d.fields.any (fun p =>
    match p.2 with
    | .str v => strInCI kw v
    | _ => false)

/-- `_validate(dataset, keyword, name, geometry_type)`.  The keyword and name
sub-conditions cannot raise; the geometry-type sub-condition reads
`dataset.geometry_type`, which raises `AttributeError` when the dataset has no
string-valued `geometry_type` attribute. -/
def filterValidate (c : FilterCond) (d : Dataset) : Except String Bool :=
  let kwOk := match c.keyword with
    | none => true
    | some kw => keywordMatch kw d
  let nameOk := match c.nameq with
    | none => true
    | some n => strInCI n d.nameStr
  match c.geometry_type with
  | none => .ok (kwOk && nameOk)
  | some g =>
    match d.fields.lookup "geometry_type" with
    | some (.str gt) =>
      .ok (kwOk && nameOk && (upperStr gt == upperStr (translateQN g)))
    | _ => .error "AttributeError: geometry_type"

mutual
/-- `_filter_bunch` without a custom function: keep a dataset when `_validate`
holds, recurse into nested bunches and keep them only when non-empty; the
first exception raised by `_validate` propagates. -/
def Bunch.filterC : Bunch → FilterCond → Except String Bunch
  | .nil, _ => .ok .nil
  | .cons k (.ds d) rest, c =>
    match filterValidate c d with
    | .error e => .error e
    | .ok keep =>
      match Bunch.filterC rest c with
      | .error e => .error e
      | .ok rest' =>
        if keep then .ok (.cons k (.ds d) rest') else .ok rest'
  | .cons k (.bunch b) rest, c =>
    match Bunch.filterC b c with
    | .error e => .error e
    | .ok filtered =>
      match Bunch.filterC rest c with
      | .error e => .error e
      | .ok rest' =>
        match filtered with
        | .nil => .ok rest'
        | _ => .ok (.cons k (.bunch filtered) rest')
end

mutual
/-- `_filter_bunch` with a custom `function`: the keyword/name/geometry-type
conditions are ignored entirely and the function alone decides. -/
def Bunch.filterF : Bunch → (Dataset → Bool) → Bunch
  | .nil, _ => .nil
  | .cons k (.ds d) rest, f =>
    if f d then .cons k (.ds d) (Bunch.filterF rest f) else Bunch.filterF rest f
  | .cons k (.bunch b) rest, f =>
    match Bunch.filterF b f with
    | .nil => Bunch.filterF rest f
    | filtered => .cons k (.bunch filtered) (Bunch.filterF rest f)
end

/-! ## The catalog loader (`_load_json`) -/

/-- `Dataset(item[i])` on a child of a url-less top-level entry: the child
must itself be a mapping, and is validated as a `Dataset` — it is *not*
inspected for a `url` key and never loaded as a nested group. -/
def loadChild (v : Value) : Except String Dataset :=
  match v with
  | .obj fields => Dataset.init fields
  | _ => .error "TypeError: not a mapping"

/-- The dict comprehension `{i: Dataset(item[i]) for i in item}`: children in
order, the first raised exception propagating. -/
def loadGroup : List (String × Value) → Except String Bunch
  | [] => .ok .nil
  | (i, w) :: rest =>
    match loadChild w with
    | .error e => .error e
    | .ok d =>
      match loadGroup rest with
      | .error e => .error e
      | .ok r => .ok (.cons i (.ds d) r)

/-- The loop of `_load_json` over the top-level entries of the parsed
definition: an entry carrying a `url` key becomes a single `Dataset`, any
other entry becomes a `Bunch` whose children are all loaded by `loadChild`. -/
def loadEntries : List (String × Value) → Except String Bunch
  | [] => .ok .nil
  | (k, v) :: rest =>
    match v with
    | .obj fields =>
      if fields.any (fun p => p.1 == "url") then
        match Dataset.init fields with
        | .error e => .error e
        | .ok d =>
          match loadEntries rest with
          | .error e => .error e
          | .ok r => .ok (.cons k (.ds d) r)
      else
        match loadGroup fields with
        | .error e => .error e
        | .ok ch =>
          match loadEntries rest with
          | .error e => .error e
          | .ok r => .ok (.cons k (.bunch ch) r)
    | _ => .error "AttributeError: keys"

/-- `_load_json(f)` after `json.loads` (string parsing is the standard
library's; the embedding starts from the parsed top-level object). -/
def _load_json (data : List (String × Value)) : Except String Bunch :=
  loadEntries data

/-! ## The fetch facade (`api.py`) and `Dataset.path` -/

/-- The external pooch cache collaborator, as the black-box service the spec
describes: `fetch` returns the verified local path of a cached file, and
`fetchUnzip` additionally extracts the named archive members and returns
their local paths. -/
structure Cache where
  fetch : String → String
  fetchUnzip : String → List String → List String

/-- `pooch.Unzip(members=...)` receives the value of `dataset.members`;
catalog members are lists of strings. -/
def Value.asStrList : Value → List String
  | .strList l => l
  | _ => []

/-- `Dataset.path`: with a `members` attribute, fetch-and-unzip and return the
single extracted file, or the first extracted file ending in `.shp` when there
are several (an empty extraction or one with no `.shp` raises); without
`members`, return the cached archive path itself. -/
def Dataset.path (cache : Cache) (d : Dataset) : Except String String :=
  match d.fields.lookup "members" with
  | some mv =>
    let unzipped_files := cache.fetchUnzip d.filenameStr mv.asStrList
    match unzipped_files with
    | [f] => .ok f
    | _ :: _ :: _ =>
      match unzipped_files.filter (fun f => strEndsWith f ".shp") with
      | g :: _ => .ok g
      | [] => .error "IndexError: list index out of range"
    | [] => .error "RuntimeError: No active exception to re-raise"
  | none => .ok (cache.fetch d.filenameStr)

/-- `api.get_url(name)`. -/
def get_url (b : Bunch) (name : String) : Except String String := do
  let d ← b.query_name name
  .ok d.urlStr

/-- `api.get_path(name)`: resolve the query, then
`CACHE.fetch(dataset.filename)` — the cached file itself, with no member
handling. -/
def get_path (cache : Cache) (b : Bunch) (name : String) :
    Except String String := do
  let d ← b.query_name name
  .ok (cache.fetch d.filenameStr)

/-- One iteration of the loop in `api.fetch`:
`CACHE.fetch(data.query_name(n).filename)`, where the cache fetch itself may
fail (network or integrity error), modelled by `cfetch`. -/
def fetchStep (b : Bunch) (cfetch : String → Except String String)
    (n : String) : Except String String :=
  match b.query_name n with
  | .error e => .error e
  | .ok d => cfetch d.filenameStr

/-- The loop of `api.fetch` over the (listified) names, instrumented with the
list of filenames fetched so far: returns the filenames fetched to completion
and the first error, if any; names after the first failure are neither
resolved nor fetched. -/
def fetchLoop (b : Bunch) (cfetch : String → Except String String) :
    List String → List String → List String × Option String
  | [], acc => (acc, none)
  | n :: rest, acc =>
    match b.query_name n with
    | .error e => (acc, some e)
    | .ok d =>
      match cfetch d.filenameStr with
      | .error e => (acc, some e)
      | .ok _ => fetchLoop b cfetch rest (acc ++ [d.filenameStr])

/-- `api.fetch(names)` on a list of names. -/
def fetch (b : Bunch) (cfetch : String → Except String String)
    (names : List String) : List String × Option String :=
  fetchLoop b cfetch names []

/-! ## Observers of the catalog tree (for stating the properties) -/

mutual
/-- The leaves of a node with their full key path from the root (group keys in
nesting order): the tree shape as data. -/
def Node.pathsN : Node → List (List String × Dataset)
  | .ds d => [([], d)]
  | .bunch b => b.paths

/-- The leaves of a group with their key paths, depth-first, children in
insertion order. -/
def Bunch.paths : Bunch → List (List String × Dataset)
  | .nil => []
  | .cons k n rest =>
    (n.pathsN.map (fun pd => (k :: pd.1, pd.2))) ++ rest.paths
end

mutual
/-- The number of leaf `Dataset`s reachable from a node. -/
def Node.leafCountN : Node → Nat
  | .ds _ => 1
  | .bunch b => b.leafCount

/-- The number of leaf `Dataset`s reachable from a group. -/
def Bunch.leafCount : Bunch → Nat
  | .nil => 0
  | .cons _ n rest => n.leafCountN + rest.leafCount
end

mutual
/-- No nested group anywhere under this node is empty. -/
def Node.noEmptyN : Node → Bool
  | .ds _ => true
  | .bunch .nil => false
  | .bunch b => b.noEmpty

/-- No nested group anywhere under this group is empty (the group itself may
be empty: only its descendants are constrained). -/
def Bunch.noEmpty : Bunch → Bool
  | .nil => true
  | .cons _ n rest => n.noEmptyN && rest.noEmpty
end

/-- Every child of the group is a `Dataset` leaf. -/
def Bunch.allDs : Bunch → Bool
  | .nil => true
  | .cons _ (.ds _) rest => rest.allDs
  | .cons _ (.bunch _) _ => false

/-- The group nests at most one further level: children are leaves or groups
of leaves. -/
def Bunch.twoLevel : Bunch → Bool
  | .nil => true
  | .cons _ (.ds _) rest => rest.twoLevel
  | .cons _ (.bunch ch) rest => ch.allDs && rest.twoLevel

/-! ## Lemmas about the dict model -/

theorem lookup_dinsert {α : Type} (l : List (String × α)) (k q : String)
    (v : α) :
    (dinsert l k v).lookup q = if q = k then some v else l.lookup q := by
  induction l with
  | nil =>
    by_cases h : q = k
    · subst h; simp [dinsert, List.lookup]
    · simp [dinsert, List.lookup, h, beq_eq_false_iff_ne.mpr h]
  | cons p rest ih =>
    obtain ⟨a, b⟩ := p
    by_cases hak : a = k
    · subst hak
      by_cases hq : q = a
      · subst hq; simp [dinsert, List.lookup]
      · simp [dinsert, List.lookup, hq, beq_eq_false_iff_ne.mpr hq]
    · by_cases hq : q = a
      · subst hq
        simp [dinsert, List.lookup, hak, beq_eq_false_iff_ne.mpr hak]
      · simp [dinsert, List.lookup, hak, hq, ih,
          beq_eq_false_iff_ne.mpr hak, beq_eq_false_iff_ne.mpr hq]

theorem keys_dinsert {α : Type} (l : List (String × α)) (k : String) (v : α) :
    (dinsert l k v).map Prod.fst =
      if k ∈ l.map Prod.fst then l.map Prod.fst else l.map Prod.fst ++ [k] := by
  induction l with
  | nil => simp [dinsert]
  | cons p rest ih =>
    obtain ⟨a, b⟩ := p
    by_cases hak : a = k
    · subst hak; simp [dinsert]
    · simp [dinsert, beq_eq_false_iff_ne.mpr hak, ih, Ne.symm hak]
      by_cases hmem : k ∈ rest.map Prod.fst <;> simp [hmem, Ne.symm hak]

theorem dinsert_of_not_mem {α : Type} (l : List (String × α)) (k : String)
    (v : α) (h : k ∉ l.map Prod.fst) : dinsert l k v = l ++ [(k, v)] := by
  induction l with
  | nil => simp [dinsert]
  | cons p rest ih =>
    obtain ⟨a, b⟩ := p
    simp only [List.map_cons, List.mem_cons] at h
    push_neg at h
    simp [dinsert, beq_eq_false_iff_ne.mpr (Ne.symm h.1), ih h.2]

theorem dictOf_append_singleton {α : Type} (ps : List (String × α))
    (p : String × α) :
    dictOf (ps ++ [p]) = dinsert (dictOf ps) p.1 p.2 := by
  simp [dictOf, List.foldl_append]

theorem lookup_dictOf {α : Type} (ps : List (String × α)) (k : String) :
    (dictOf ps).lookup k = ps.reverse.lookup k := by
  induction ps using List.reverseRecOn with
  | nil => simp [dictOf]
  | append_singleton as a ih =>
    obtain ⟨ka, va⟩ := a
    rw [dictOf_append_singleton, lookup_dinsert]
    by_cases h : k = ka
    · subst h; simp [List.lookup]
    · simp [List.lookup, h, beq_eq_false_iff_ne.mpr h, ih]

theorem lookup_eq_some_of_mem_nodup {α : Type} (l : List (String × α))
    (k : String) (v : α) (hmem : (k, v) ∈ l)
    (hnd : (l.map Prod.fst).Nodup) : l.lookup k = some v := by
  induction l with
  | nil => simp at hmem
  | cons p rest ih =>
    obtain ⟨a, b⟩ := p
    simp only [List.map_cons, List.nodup_cons] at hnd
    rcases List.mem_cons.mp hmem with h | h
    · obtain ⟨hk, hv⟩ := Prod.mk.injEq .. ▸ h
      cases h
      simp [List.lookup]
    · have hka : k ≠ a := by
        rintro rfl
        exact hnd.1 (List.mem_map.mpr ⟨(k, v), h, rfl⟩)
      simp [List.lookup, beq_eq_false_iff_ne.mpr hka, ih h hnd.2]

theorem dictOf_eq_self_of_nodup {α : Type} (ps : List (String × α))
    (hnd : (ps.map Prod.fst).Nodup) : dictOf ps = ps := by
  induction ps using List.reverseRecOn with
  | nil => simp [dictOf]
  | append_singleton as a ih =>
    obtain ⟨ka, va⟩ := a
    simp only [List.map_append, List.map_cons, List.map_nil] at hnd
    have hsplit := List.nodup_append.mp hnd
    rw [dictOf_append_singleton, ih hsplit.1]
    exact dinsert_of_not_mem _ _ _ (by
      intro hmem
      exact hsplit.2.2 hmem (by simp))

theorem mem_keys_dictOf {α : Type} (ps : List (String × α)) (k : String) :
    k ∈ (dictOf ps).map Prod.fst ↔ k ∈ ps.map Prod.fst := by
  induction ps using List.reverseRecOn with
  | nil => simp [dictOf]
  | append_singleton as a ih =>
    obtain ⟨ka, va⟩ := a
    rw [dictOf_append_singleton, keys_dinsert]
    by_cases h : ka ∈ (dictOf as).map Prod.fst
    · simp only [h, if_true]
      simp only [List.map_append, List.map_cons, List.map_nil,
        List.mem_append, List.mem_cons]
      constructor
      · intro hk; exact Or.inl (ih.mp hk)
      · rintro (hk | hk | hk)
        · exact ih.mpr hk
        · subst hk; exact h
        · simp at hk
    · simp only [h, if_false]
      simp [ih, or_comm]

theorem nodup_keys_dictOf {α : Type} (ps : List (String × α)) :
    ((dictOf ps).map Prod.fst).Nodup := by
  induction ps using List.reverseRecOn with
  | nil => simp [dictOf]
  | append_singleton as a ih =>
    obtain ⟨ka, va⟩ := a
    rw [dictOf_append_singleton, keys_dinsert]
    by_cases h : ka ∈ (dictOf as).map Prod.fst
    · simpa [h] using ih
    · simp only [h, if_false]
      exact List.Nodup.append ih (by simp) (by
        intro x hx hx2
        simp at hx2
        subst hx2
        exact h hx)

theorem length_dictOf {α : Type} (ps : List (String × α)) :
    (dictOf ps).length = (ps.map Prod.fst).toFinset.card := by
  have hkeys : (dictOf ps).length = ((dictOf ps).map Prod.fst).length := by
    simp
  rw [hkeys, ← List.toFinset_card_of_nodup (nodup_keys_dictOf ps)]
  congr 1
  apply Finset.ext
  intro x
  rw [List.mem_toFinset, List.mem_toFinset]
  exact mem_keys_dictOf ps x

/-! ## Lemmas relating the tree observers -/

mutual
theorem Node.items_eq_pathsN : (n : Node) →
    n.items = n.pathsN.map (fun pd => (pd.2.nameStr, pd.2))
  | .ds d => by simp [Node.items, Node.pathsN]
  | .bunch b => by simp [Node.items, Node.pathsN, Bunch.items_eq_paths b]

theorem Bunch.items_eq_paths : (b : Bunch) →
    b.items = b.paths.map (fun pd => (pd.2.nameStr, pd.2))
  | .nil => by simp [Bunch.items, Bunch.paths]
  | .cons k n rest => by
    simp only [Bunch.items, Bunch.paths, List.map_append, List.map_map,
      Node.items_eq_pathsN n, Bunch.items_eq_paths rest]
    rfl
end

mutual
theorem Node.length_items_eq_leafCountN : (n : Node) →
    n.items.length = n.leafCountN
  | .ds d => by simp [Node.items, Node.leafCountN]
  | .bunch b => by
    simp [Node.items, Node.leafCountN, Bunch.length_items_eq_leafCount b]

theorem Bunch.length_items_eq_leafCount : (b : Bunch) →
    b.items.length = b.leafCount
  | .nil => by simp [Bunch.items, Bunch.leafCount]
  | .cons k n rest => by
    simp [Bunch.items, Bunch.leafCount, Node.length_items_eq_leafCountN n,
      Bunch.length_items_eq_leafCount rest]
end

/-! ## Lemmas about `joinSep` -/

theorem mem_joinSep (sep : String) (l : List String) (m : String)
    (h : m ∈ l) : ∃ a b, joinSep sep l = a ++ m ++ b := by
  induction l with
  | nil => simp at h
  | cons x xs ih =>
    cases xs with
    | nil =>
      have hx : m = x := by simpa using h
      subst hx
      exact ⟨"", "", by simp [joinSep]⟩
    | cons y ys =>
      rcases List.mem_cons.mp h with rfl | hm
      · exact ⟨"", sep ++ joinSep sep (y :: ys),
          by simp [joinSep, String.append_assoc]⟩
      · obtain ⟨a, b, hab⟩ := ih hm
        exact ⟨x ++ sep ++ a, b,
          by simp [joinSep, hab, String.append_assoc]⟩

/-! ## Concrete fixtures (the spec's scenarios) -/

/-- The `geoda.airbnb` record of the spec's scenario. -/
def airbnbFields : List (String × Value) :=
  [("name", .str "geoda.airbnb"), ("url", .str "https://x/airbnb.zip"),
   ("hash", .str "sha1:abc"), ("filename", .str "airbnb.zip")]

def airbnbDS : Dataset := ⟨airbnbFields⟩

def guerryDS : Dataset :=
  ⟨[("name", .str "geoda.guerry"), ("url", .str "https://x/guerry.zip"),
    ("hash", .str "sha1:def"), ("filename", .str "guerry.zip")]⟩

/-- A two-record catalog in one nested group. -/
def demoCatalog : Bunch :=
  .cons "geoda"
    (.bunch (.cons "airbnb" (.ds airbnbDS)
      (.cons "guerry" (.ds guerryDS) .nil))) .nil

/-- A deterministic model of the pooch cache: cached files live under
`/cache/`, archive members are extracted under `/cache/<archive>.unzip/`. -/
def demoCache : Cache :=
  ⟨fun fn => "/cache/" ++ fn,
   fun fn ms => ms.map (fun m => "/cache/" ++ fn ++ ".unzip/" ++ m)⟩

/-- A cache fetch that always succeeds. -/
def demoCfetch : String → Except String String :=
  fun fn => .ok ("/cache/" ++ fn)

/-- The spec's multi-member shapefile record. -/
def shpFields : List (String × Value) :=
  [("name", .str "nyc"), ("url", .str "https://x/a.zip"),
   ("hash", .str "sha1:aaa"), ("filename", .str "a.zip"),
   ("members", .strList ["a.dbf", "a.shp", "a.shx"])]

def shpDS : Dataset := ⟨shpFields⟩

def shpCatalog : Bunch := .cons "nyc" (.ds shpDS) .nil

/-! ## Claims -/

/-- C2: for every Record `r` in the loaded catalog (an entry of the flattened
dict) and every query string `q` whose normalized form (lower-cased, with
each of `.`, `,`, `-`, `_`, `/` and space deleted) equals the normalized form
of `r`'s full name, `query_name q` returns `r`; in particular
`query_name r.name` returns `r` (round-trip).  The catalog invariant that
distinct flattened names keep distinct normalized forms (the spec requires
catalog authors to avoid such collisions) is the `hnd` hypothesis. -/
theorem C2_query_name_normalized_roundtrip (b : Bunch) (k q : String)
    (d : Dataset) (hmem : (k, d) ∈ b.flatten)
    (hnd : (b.flatten.map (fun p => normalizeQN p.1)).Nodup)
    (hq : normalizeQN q = normalizeQN k) :
    b.query_name q = .ok d := by
  have hmap_nodup :
      (((b.flatten.map (fun p => (normalizeQN p.1, p.2))).map Prod.fst)).Nodup := by
    simpa [List.map_map, Function.comp] using hnd
  have hdict := dictOf_eq_self_of_nodup _ hmap_nodup
  have hmem2 : (normalizeQN k, d) ∈
      b.flatten.map (fun p => (normalizeQN p.1, p.2)) :=
    List.mem_map_of_mem _ hmem
  have hlook := lookup_eq_some_of_mem_nodup _ _ _ hmem2 hmap_nodup
  simp only [Bunch.query_name, hdict, hq, hlook]

/-- C2 witness: the spec's fuzzy-matching scenario, `"GeoDa AirBnB"` resolves
to the record named `geoda.airbnb`. -/
theorem C2_witness : demoCatalog.query_name "GeoDa AirBnB" = .ok airbnbDS :=
  C2_query_name_normalized_roundtrip demoCatalog "geoda.airbnb" "GeoDa AirBnB"
    airbnbDS (List.Mem.head _) (by decide) (by decide)

/-- C3 counterexample: the actual `ValueError` message carries a trailing
period, so it is not *exactly* the string
`No matching item found for the query '<q>'` the claim states. -/
theorem C3_counterexample :
    Bunch.nil.query_name "data" =
      .error "No matching item found for the query 'data'." ∧
    "No matching item found for the query 'data'." ≠
      "No matching item found for the query 'data'" :=
  ⟨rfl, by decide⟩

/-- C3 (amended): a failed query raises an error whose message is exactly
`No matching item found for the query '<q>'.` — with a trailing period — and
in particular the message contains the literal query string that failed. -/
theorem C3_notfound_message (b : Bunch) (q msg : String)
    (h : b.query_name q = .error msg) :
    msg = "No matching item found for the query '" ++ q ++ "'." ∧
    ∃ a c, msg = a ++ q ++ c := by
  have hmsg : msg = "No matching item found for the query '" ++ q ++ "'." := by
    revert h
    simp only [Bunch.query_name]
    cases hl : (dictOf (b.flatten.map (fun p => (normalizeQN p.1, p.2)))).lookup
        (normalizeQN q) with
    | none => intro h; exact (Except.error.injEq .. ▸ h).symm
    | some d => intro h; cases h
  refine ⟨hmsg, "No matching item found for the query '", "'.", ?_⟩
  rw [hmsg, String.append_assoc]

/-- C3 witness: the amended message law at the concrete failing query
`no-such-dataset` against the demo catalog. -/
theorem C3_witness :
    ("No matching item found for the query 'no-such-dataset'." =
      "No matching item found for the query '" ++ "no-such-dataset" ++ "'.") ∧
    ∃ a c, "No matching item found for the query 'no-such-dataset'." =
      a ++ "no-such-dataset" ++ c :=
  C3_notfound_message demoCatalog "no-such-dataset" _ rfl

/-- C4: `flatten` collects exactly the depth-first reachable records keyed by
their full `name` (first conjunct: same key set as the visit list), a name
occurring several times is resolved last-write-wins (second conjunct: the
flattened dict looks a name up to the *last* record of the visit list bearing
it), and when all reachable names are distinct the size of the flattened dict
equals the number of reachable leaf records (third conjunct). -/
theorem C4_flatten_lww_and_size (b : Bunch) :
    (∀ n, n ∈ b.flatten.map Prod.fst ↔ n ∈ b.items.map Prod.fst) ∧
    (∀ n, b.flatten.lookup n = b.items.reverse.lookup n) ∧
    ((b.items.map Prod.fst).Nodup → b.flatten.length = b.leafCount) := by
  refine ⟨fun n => mem_keys_dictOf _ n, fun n => lookup_dictOf _ n, fun hnd => ?_⟩
  rw [Bunch.flatten, dictOf_eq_self_of_nodup _ hnd,
    Bunch.length_items_eq_leafCount]

theorem lookup_eq_none_of_not_mem {α : Type} (l : List (String × α))
    (k : String) (h : k ∉ l.map Prod.fst) : l.lookup k = none := by
  induction l with
  | nil => simp [List.lookup]
  | cons p rest ih =>
    obtain ⟨a, b⟩ := p
    simp only [List.map_cons, List.mem_cons] at h
    push_neg at h
    simp [List.lookup, beq_eq_false_iff_ne.mpr h.1, ih h.2]

theorem lookup_foldl_dinsert {α : Type} (kw : List (String × α))
    (init : List (String × α)) (k : String)
    (hnd : (kw.map Prod.fst).Nodup) :
    (kw.foldl (fun acc p => dinsert acc p.1 p.2) init).lookup k =
      (kw.lookup k).or (init.lookup k) := by
  induction kw generalizing init with
  | nil => simp [List.lookup]
  | cons p rest ih =>
    obtain ⟨k0, v0⟩ := p
    simp only [List.map_cons, List.nodup_cons] at hnd
    rw [List.foldl_cons, ih _ hnd.2, lookup_dinsert]
    by_cases hk : k = k0
    · subst hk
      have : rest.lookup k = none :=
        lookup_eq_none_of_not_mem _ _ (by
          intro hmem
          exact hnd.1 (by simpa using hmem))
      simp [List.lookup, this]
    · simp [List.lookup, beq_eq_false_iff_ne.mpr hk, hk]

theorem any_key_eq_iff_mem {α : Type} (l : List (String × α)) (k : String) :
    l.any (fun p => p.1 == k) = true ↔ k ∈ l.map Prod.fst := by
  simp [List.any_eq_true, List.mem_map, beq_iff_eq]

/-- C6: constructing a `Dataset` from fields in which any of
{name, url, hash, filename} is absent fails, with a message listing *every*
missing required attribute (fourth conjunct: each missing name occurs in the
message); construction succeeds exactly when all four are present (first and
second conjuncts). -/
theorem C6_dataset_validation (fields : List (String × Value)) :
    (missingAttrs fields = [] ↔
      ∀ r ∈ requiredAttrs, r ∈ fields.map Prod.fst) ∧
    (missingAttrs fields = [] → Dataset.init fields = .ok ⟨fields⟩) ∧
    (missingAttrs fields ≠ [] →
      Dataset.init fields = .error (initErrorMsg (missingAttrs fields))) ∧
    (∀ m ∈ missingAttrs fields,
      ∃ a b, initErrorMsg (missingAttrs fields) = a ++ m ++ b) := by
  refine ⟨?_, ?_, ?_, ?_⟩
  · rw [missingAttrs, List.filter_eq_nil_iff]
    apply forall_congr'
    intro r
    apply imp_congr_right
    intro _
    rw [← any_key_eq_iff_mem]
    simp
  · intro h; simp [Dataset.init, h]
  · intro h; simp [Dataset.init, h]
  · intro m hm
    obtain ⟨a, b, hab⟩ := mem_joinSep ("`" ++ ", " ++ "`") (missingAttrs fields) m hm
    refine ⟨"The attributes ['name', 'url', 'hash', 'filename'] are required to " ++
      "initialise a `Dataset`. Please provide values for: `" ++ a, b ++ "`", ?_⟩
    rw [initErrorMsg]
    rw [show joinSep "`, `" (missingAttrs fields) = a ++ m ++ b from hab]
    simp [String.append_assoc]

/-- The fields of the `hash`-less leaf of the C6 scenario. -/
def hashlessFields : List (String × Value) :=
  [("name", .str "geoda.airbnb"), ("url", .str "https://x/airbnb.zip"),
   ("filename", .str "airbnb.zip")]

/-- C6 witness: a leaf missing `hash` is rejected with a message mentioning
`hash`; a definition whose leaf misses `hash` fails to load with that very
message; a complete leaf is accepted. -/
theorem C6_witness :
    (Dataset.init hashlessFields = .error (initErrorMsg ["hash"])) ∧
    (∃ a b, initErrorMsg ["hash"] = a ++ "hash" ++ b) ∧
    (_load_json [("airbnb", .obj hashlessFields)] =
      .error (initErrorMsg ["hash"])) ∧
    (Dataset.init airbnbFields = .ok ⟨airbnbFields⟩) :=
  ⟨(C6_dataset_validation hashlessFields).2.2.1 (by decide),
   (C6_dataset_validation hashlessFields).2.2.2 "hash" (by decide),
   rfl,
   (C6_dataset_validation airbnbFields).2.1 (by decide)⟩

/-- C10: `Dataset.copy(**kwargs)` silently ignores its keyword arguments and
returns a record equal to the receiver (first conjunct), while calling the
record itself, `Dataset(**kwargs)`, merges the overrides into the copy:
looking a key up in the result prefers the override and falls back to the
original fields (second conjunct). -/
theorem C10_copy_ignores_kwargs (d : Dataset) (kw : List (String × Value))
    (hnd : (kw.map Prod.fst).Nodup) :
    d.copyD kw = d ∧
    (∀ k, (d.callD kw).fields.lookup k =
      (kw.lookup k).or (d.fields.lookup k)) :=
  ⟨rfl, fun k => lookup_foldl_dinsert kw d.fields k hnd⟩

/-- C10 witness: an `nrows` override is ignored by `copy` and applied by
`__call__` on the concrete airbnb record. -/
theorem C10_witness :
    airbnbDS.copyD [("nrows", Value.num 5)] = airbnbDS ∧
    (airbnbDS.callD [("nrows", Value.num 5)]).fields.lookup "nrows" =
      some (Value.num 5) :=
  ⟨(C10_copy_ignores_kwargs airbnbDS [("nrows", Value.num 5)] (by decide)).1,
   (C10_copy_ignores_kwargs airbnbDS [("nrows", Value.num 5)] (by decide)).2
     "nrows"⟩

/-! ## C5: the loader's non-recursive group handling -/

theorem loadGroup_allDs (fields : List (String × Value)) (ch : Bunch)
    (h : loadGroup fields = .ok ch) : ch.allDs = true := by
  induction fields generalizing ch with
  | nil =>
    have hch : Bunch.nil = ch := Except.ok.inj h
    exact hch ▸ rfl
  | cons p rest ih =>
    obtain ⟨i, w⟩ := p
    cases hd : loadChild w with
    | error e => simp [loadGroup, hd] at h
    | ok d =>
      cases hr : loadGroup rest with
      | error e => simp [loadGroup, hd, hr] at h
      | ok r =>
        simp only [loadGroup, hd, hr, Except.ok.injEq] at h
        subst h
        simpa [Bunch.allDs] using ih r hr

theorem loadEntries_twoLevel (data : List (String × Value)) (b : Bunch)
    (h : loadEntries data = .ok b) : b.twoLevel = true := by
  induction data generalizing b with
  | nil =>
    have hb : Bunch.nil = b := Except.ok.inj h
    exact hb ▸ rfl
  | cons p rest ih =>
    obtain ⟨k, v⟩ := p
    cases v with
    | obj fields =>
      by_cases hurl : fields.any (fun p => p.1 == "url") = true
      · cases hd : Dataset.init fields with
        | error e => simp [loadEntries, hurl, hd] at h
        | ok d =>
          cases hr : loadEntries rest with
          | error e => simp [loadEntries, hurl, hd, hr] at h
          | ok r =>
            simp only [loadEntries, hurl, if_true, hd, hr,
              Except.ok.injEq] at h
            subst h
            simpa [Bunch.twoLevel] using ih r hr
      · cases hg : loadGroup fields with
        | error e => simp [loadEntries, hurl, hg] at h
        | ok ch =>
          cases hr : loadEntries rest with
          | error e => simp [loadEntries, hurl, hg, hr] at h
          | ok r =>
            simp only [loadEntries, hurl, Bool.false_eq_true, if_false, hg, hr,
              Except.ok.injEq] at h
            subst h
            simp [Bunch.twoLevel, loadGroup_allDs fields ch hg, ih r hr]
    | str s => simp [loadEntries] at h
    | num n => simp [loadEntries] at h
    | strList l => simp [loadEntries] at h

/-- The depth-three definition: a group whose child `h` is itself url-less and
holds a fully valid record at depth three. -/
def nestedDef : List (String × Value) :=
  [("g", .obj [("h", .obj [("i", .obj airbnbFields)])])]

/-- C5 counterexample: on a depth-three definition the loader does *not*
recurse — the url-less child `h` is fed to the `Dataset` constructor and
rejected for missing all required attributes — even though the depth-three
leaf itself is a perfectly valid record, so loading by the claimed recursive
rule would have succeeded. -/
theorem C5_counterexample :
    _load_json nestedDef =
      .error (initErrorMsg ["name", "url", "hash", "filename"]) ∧
    Dataset.init airbnbFields = .ok ⟨airbnbFields⟩ :=
  ⟨rfl, rfl⟩

/-- C5 (amended): `load` treats each top-level entry containing a `url` key
as a single Record (first conjunct) and any other top-level entry as a group
each of whose children is loaded as a Record by the `Dataset` constructor —
one level only, never recursively as a nested group (second and third
conjuncts) — so every successfully loaded catalog nests at most two levels,
groups containing only Records (fourth conjunct). -/
theorem C5_load_single_level_groups :
    (∀ (k : String) (fields : List (String × Value)) rest,
      fields.any (fun p => p.1 == "url") = true →
      loadEntries ((k, .obj fields) :: rest) =
        (Dataset.init fields).bind (fun d =>
          (loadEntries rest).map (fun r => .cons k (.ds d) r))) ∧
    (∀ (k : String) (fields : List (String × Value)) rest,
      fields.any (fun p => p.1 == "url") = false →
      loadEntries ((k, .obj fields) :: rest) =
        (loadGroup fields).bind (fun ch =>
          (loadEntries rest).map (fun r => .cons k (.bunch ch) r))) ∧
    (∀ (i : String) (w : Value) grest,
      loadGroup ((i, w) :: grest) =
        (loadChild w).bind (fun d =>
          (loadGroup grest).map (fun r => .cons i (.ds d) r))) ∧
    (∀ data b, _load_json data = .ok b → b.twoLevel = true) := by
  refine ⟨?_, ?_, ?_, fun data b h => loadEntries_twoLevel data b h⟩
  · intro k fields rest hurl
    cases hd : Dataset.init fields <;> cases hr : loadEntries rest <;>
      simp [loadEntries, hurl, hd, hr, Except.bind, Except.map]
  · intro k fields rest hurl
    cases hg : loadGroup fields <;> cases hr : loadEntries rest <;>
      simp [loadEntries, hurl, hg, hr, Except.bind, Except.map]
  · intro i w grest
    cases hd : loadChild w <;> cases hg : loadGroup grest <;>
      simp [loadGroup, hd, hg, Except.bind, Except.map]

/-- The two-level catalog loaded from the flat geoda definition. -/
def geodaLoaded : Bunch :=
  .cons "geoda" (.bunch (.cons "airbnb" (.ds ⟨airbnbFields⟩) .nil)) .nil

/-- C5 witness: the amended discrimination rule at a concrete definition — a
url-carrying leaf beside a url-less group — and the two-level bound on the
loaded result. -/
theorem C5_witness :
    loadEntries [("solo", .obj shpFields)] =
      (Dataset.init shpFields).bind (fun d =>
        (loadEntries []).map (fun r => .cons "solo" (.ds d) r)) ∧
    geodaLoaded.twoLevel = true :=
  ⟨C5_load_single_level_groups.1 "solo" shpFields [] (by decide),
   C5_load_single_level_groups.2.2.2
     [("geoda", .obj [("airbnb", .obj airbnbFields)])] geodaLoaded rfl⟩

/-! ## C7: sequential fail-fast batch fetch -/

theorem fetchLoop_failfast (b : Bunch) (cfetch : String → Except String String)
    (bad : String)
    (hbad : ∀ d p, b.query_name bad = .ok d → cfetch d.filenameStr ≠ .ok p) :
    ∀ (pre : List String) (acc : List String),
      (∀ m ∈ pre, ∃ d p, b.query_name m = .ok d ∧
        cfetch d.filenameStr = .ok p) →
      ∃ fs e, fs.length = pre.length ∧
        ∀ post : List String,
          fetchLoop b cfetch (pre ++ bad :: post) acc = (acc ++ fs, some e) := by
  intro pre
  induction pre with
  | nil =>
    intro acc _
    cases hq : b.query_name bad with
    | error e =>
      exact ⟨[], e, rfl, fun post => by
        simp [fetchLoop, hq]⟩
    | ok d =>
      cases hc : cfetch d.filenameStr with
      | error e =>
        exact ⟨[], e, rfl, fun post => by
          simp [fetchLoop, hq, hc]⟩
      | ok p => exact absurd hc (hbad d p hq)
  | cons m pre' ih =>
    intro acc hpre
    obtain ⟨d, p, hq, hc⟩ := hpre m (List.mem_cons_self m pre')
    obtain ⟨fs, e, hlen, hloop⟩ :=
      ih (acc ++ [d.filenameStr])
        (fun x hx => hpre x (List.mem_cons_of_mem m hx))
    refine ⟨d.filenameStr :: fs, e, by simp [hlen], fun post => ?_⟩
    have hpost := hloop post
    simp only [List.cons_append, fetchLoop, hq, hc, List.append_eq]
    rw [hpost, List.append_assoc]
    rfl

/-- C7: `fetch` over a list of names is sequential and fail-fast — when every
name of `pre` resolves and fetches successfully and `bad` fails (at
resolution, or at the cache fetch), the batch fetches exactly one file per
name of `pre`, stops with `bad`'s error, and the names after `bad` are never
resolved nor fetched (the result does not depend on `post` at all). -/
theorem C7_fetch_failfast (b : Bunch)
    (cfetch : String → Except String String) (pre : List String)
    (bad : String) (hbad : ∀ d p, b.query_name bad = .ok d →
      cfetch d.filenameStr ≠ .ok p)
    (hpre : ∀ m ∈ pre, ∃ d p, b.query_name m = .ok d ∧
      cfetch d.filenameStr = .ok p) :
    ∃ fs e, fs.length = pre.length ∧
      ∀ post : List String,
        fetch b cfetch (pre ++ bad :: post) = (fs, some e) := by
  obtain ⟨fs, e, hlen, hloop⟩ := fetchLoop_failfast b cfetch bad hbad pre [] hpre
  exact ⟨fs, e, hlen, fun post => by simpa using hloop post⟩

/-- C7 witness: fetching `["geoda airbnb", "bogus name", …]` against the demo
catalog fetches exactly the one file of the name before the bogus one and
aborts with its error, whatever names come after. -/
theorem C7_witness :
    ∃ fs e, fs.length = (["geoda airbnb"] : List String).length ∧
      ∀ post : List String,
        fetch demoCatalog demoCfetch
          (["geoda airbnb"] ++ "bogus name" :: post) = (fs, some e) :=
  C7_fetch_failfast demoCatalog demoCfetch ["geoda airbnb"] "bogus name"
    (fun d p h => Except.noConfusion h)
    (fun m hm => by
      have hm' : m = "geoda airbnb" := by simpa using hm
      subst hm'
      exact ⟨airbnbDS, "/cache/airbnb.zip", rfl, rfl⟩)

/-! ## C1: archive members and the returned path -/

/-- C1 counterexample: on a Record declaring
`members = ["a.dbf", "a.shp", "a.shx"]`, the module-level `get_path` returns
the cached archive itself (`/cache/a.zip`), not a path ending in `a.shp` —
the member-extraction behaviour lives on the Record's `path` property
instead, which does return the `.shp` member for the same record and cache. -/
theorem C1_counterexample :
    get_path demoCache shpCatalog "nyc" = .ok "/cache/a.zip" ∧
    strEndsWith "/cache/a.zip" "a.shp" = false ∧
    Dataset.path demoCache shpDS = .ok "/cache/a.zip.unzip/a.shp" :=
  ⟨rfl, by decide, rfl⟩

/-- C1 (amended): the single-file/first-`.shp` member rule holds of the
Record's `path` property (not of `get_path`, which always returns the cached
archive path): when the archive yields exactly one extracted file, `path`
returns it, and when it yields several, `path` returns the first extracted
file whose name ends in `.shp`. -/
theorem C1_dataset_path_members (cache : Cache) (d : Dataset)
    (ms : List String)
    (hm : d.fields.lookup "members" = some (.strList ms)) :
    (∀ f, cache.fetchUnzip d.filenameStr ms = [f] →
      d.path cache = .ok f) ∧
    (∀ f1 f2 fs g gs, cache.fetchUnzip d.filenameStr ms = f1 :: f2 :: fs →
      (f1 :: f2 :: fs).filter (fun f => strEndsWith f ".shp") = g :: gs →
      d.path cache = .ok g) := by
  constructor
  · intro f hf
    simp [Dataset.path, hm, Value.asStrList, hf]
  · intro f1 f2 fs g gs hf hfilter
    simp [Dataset.path, hm, Value.asStrList, hf, hfilter]

/-- C1 witness: the spec's scenario — members `["a.dbf", "a.shp", "a.shx"]`
extract to three files and `path` returns the one ending in `a.shp`. -/
theorem C1_witness :
    shpDS.path demoCache = .ok "/cache/a.zip.unzip/a.shp" ∧
    strEndsWith "/cache/a.zip.unzip/a.shp" "a.shp" = true :=
  ⟨(C1_dataset_path_members demoCache shpDS ["a.dbf", "a.shp", "a.shx"]
      rfl).2
    "/cache/a.zip.unzip/a.dbf" "/cache/a.zip.unzip/a.shp"
    ["/cache/a.zip.unzip/a.shx"] "/cache/a.zip.unzip/a.shp" [] rfl (by decide),
   by decide⟩

/-! ## C8/C9: the filter algebra -/

theorem filterC_spec : (b : Bunch) → ∀ (c : FilterCond) (b' : Bunch),
    b.filterC c = .ok b' → b'.paths.Sublist b.paths ∧ b'.noEmpty = true
  | .nil => by
    intro c b' h
    have hb : Bunch.nil = b' := Except.ok.inj h
    subst hb
    exact ⟨List.Sublist.refl _, rfl⟩
  | .cons k (.ds d) rest => by
    intro c b' h
    cases hv : filterValidate c d with
    | error e => simp [Bunch.filterC, hv] at h
    | ok keep =>
      cases hr : Bunch.filterC rest c with
      | error e => simp [Bunch.filterC, hv, hr] at h
      | ok rest' =>
        have ih := filterC_spec rest c rest' hr
        cases keep with
        | true =>
          simp only [Bunch.filterC, hv, hr, if_true, Except.ok.injEq] at h
          subst h
          constructor
          · simpa [Bunch.paths, Node.pathsN] using
              List.Sublist.cons₂ ([k], d) ih.1
          · simp [Bunch.noEmpty, Node.noEmptyN, ih.2]
        | false =>
          simp only [Bunch.filterC, hv, hr, Bool.false_eq_true, if_false,
            Except.ok.injEq] at h
          subst h
          constructor
          · simpa [Bunch.paths, Node.pathsN] using
              List.Sublist.cons ([k], d) ih.1
          · exact ih.2
  | .cons k (.bunch bb) rest => by
    intro c b' h
    cases hf : Bunch.filterC bb c with
    | error e => simp [Bunch.filterC, hf] at h
    | ok fb =>
      cases hr : Bunch.filterC rest c with
      | error e => simp [Bunch.filterC, hf, hr] at h
      | ok rest' =>
        have ih1 := filterC_spec bb c fb hf
        have ih2 := filterC_spec rest c rest' hr
        cases fb with
        | nil =>
          simp only [Bunch.filterC, hf, hr, Except.ok.injEq] at h
          subst h
          constructor
          · exact (ih2.1).trans (List.sublist_append_right _ _)
          · exact ih2.2
        | cons k2 n2 r2 =>
          simp only [Bunch.filterC, hf, hr, Except.ok.injEq] at h
          subst h
          constructor
          · simpa [Bunch.paths, Node.pathsN] using
              List.Sublist.append (List.Sublist.map _ ih1.1) ih2.1
          · have h12 : n2.noEmptyN = true ∧ r2.noEmpty = true := by
              simpa [Bunch.noEmpty] using ih1.2
            simp [Bunch.noEmpty, Node.noEmptyN, h12.1, h12.2, ih2.2]

theorem filterF_spec : (b : Bunch) → ∀ f : Dataset → Bool,
    (b.filterF f).paths.Sublist b.paths ∧ (b.filterF f).noEmpty = true
  | .nil => by
    intro f
    exact ⟨List.Sublist.refl _, rfl⟩
  | .cons k (.ds d) rest => by
    intro f
    have ih := filterF_spec rest f
    by_cases hf : f d = true
    · constructor
      · simpa [Bunch.filterF, hf, Bunch.paths, Node.pathsN] using
          List.Sublist.cons₂ ([k], d) ih.1
      · simp [Bunch.filterF, hf, Bunch.noEmpty, Node.noEmptyN, ih.2]
    · constructor
      · simpa [Bunch.filterF, hf, Bunch.paths, Node.pathsN] using
          List.Sublist.cons ([k], d) ih.1
      · simp [Bunch.filterF, hf, ih.2]
  | .cons k (.bunch bb) rest => by
    intro f
    have ih1 := filterF_spec bb f
    have ih2 := filterF_spec rest f
    cases hfb : Bunch.filterF bb f with
    | nil =>
      constructor
      · simpa [Bunch.filterF, hfb, Bunch.paths] using
          (ih2.1).trans (List.sublist_append_right _ _)
      · simpa [Bunch.filterF, hfb] using ih2.2
    | cons k2 n2 r2 =>
      constructor
      · rw [hfb] at ih1
        simpa [Bunch.filterF, hfb, Bunch.paths, Node.pathsN] using
          List.Sublist.append (List.Sublist.map _ ih1.1) ih2.1
      · rw [hfb] at ih1
        have h12 : n2.noEmptyN = true ∧ r2.noEmpty = true := by
          simpa [Bunch.noEmpty] using ih1.2
        simp [Bunch.filterF, hfb, Bunch.noEmpty, Node.noEmptyN, h12.1, h12.2,
          ih2.2]

theorem dictOf_length_mono {α : Type} (l l' : List (String × α))
    (h : l'.Sublist l) : (dictOf l').length ≤ (dictOf l).length := by
  rw [length_dictOf, length_dictOf]
  apply Finset.card_le_card
  intro x hx
  rw [List.mem_toFinset] at hx ⊢
  exact (h.map Prod.fst).subset hx

theorem paths_length_eq_leafCount (b : Bunch) :
    b.paths.length = b.leafCount := by
  have h1 : b.items.length = b.paths.length := by
    rw [Bunch.items_eq_paths]; simp
  rw [← h1, Bunch.length_items_eq_leafCount]

theorem items_sublist_of_paths_sublist (b b' : Bunch)
    (h : b'.paths.Sublist b.paths) : b'.items.Sublist b.items := by
  rw [Bunch.items_eq_paths, Bunch.items_eq_paths]
  exact h.map _

/-- C8: for every tree and every filter condition — a keyword/name/geometry
composite or a custom predicate — filtering returns a tree whose depth-first
(key-path, record) enumeration is a sublist of the original's (so nesting,
group keys and order are preserved and every surviving record is an original
record, unchanged, at its original position), whose flattened-dict size and
leaf count never exceed the original's, and in which no surviving group is
empty. -/
theorem C8_filter_monotone_preserving (b : Bunch) :
    (∀ (c : FilterCond) (b' : Bunch), b.filterC c = .ok b' →
      b'.paths.Sublist b.paths ∧
      (dictOf b'.items).length ≤ (dictOf b.items).length ∧
      b'.leafCount ≤ b.leafCount ∧
      b'.noEmpty = true) ∧
    (∀ f : Dataset → Bool,
      (b.filterF f).paths.Sublist b.paths ∧
      (dictOf (b.filterF f).items).length ≤ (dictOf b.items).length ∧
      (b.filterF f).leafCount ≤ b.leafCount ∧
      (b.filterF f).noEmpty = true) := by
  constructor
  · intro c b' h
    obtain ⟨hsub, hne⟩ := filterC_spec b c b' h
    refine ⟨hsub, dictOf_length_mono _ _ (items_sublist_of_paths_sublist _ _ hsub), ?_, hne⟩
    rw [← paths_length_eq_leafCount, ← paths_length_eq_leafCount]
    exact hsub.length_le
  · intro f
    obtain ⟨hsub, hne⟩ := filterF_spec b f
    refine ⟨hsub, dictOf_length_mono _ _ (items_sublist_of_paths_sublist _ _ hsub), ?_, hne⟩
    rw [← paths_length_eq_leafCount, ← paths_length_eq_leafCount]
    exact hsub.length_le

/-- The geometry-type sub-condition as a predicate on one dataset: the
dataset's `geometry_type` attribute, upper-cased, equals the supplied
geometry type after separator-stripping and upper-casing. -/
def geomMatch (g : String) (d : Dataset) : Bool :=
  match d.fields.lookup "geometry_type" with
  | some (.str gt) => upperStr gt == upperStr (translateQN g)
  | _ => false

theorem filterValidate_geom_ok (g : String) (d : Dataset) (keep : Bool)
    (h : filterValidate ⟨none, none, some g⟩ d = .ok keep) :
    keep = geomMatch g d := by
  cases hl : d.fields.lookup "geometry_type" with
  | none =>
    simp [filterValidate, hl] at h
  | some v =>
    cases v with
    | str gt =>
      simp only [filterValidate, hl, Bool.true_and, Except.ok.injEq] at h
      simp [geomMatch, hl, ← h]
    | num n => simp [filterValidate, hl] at h
    | strList l => simp [filterValidate, hl] at h
    | obj o => simp [filterValidate, hl] at h

theorem filterC_geom_items : (b : Bunch) → ∀ (g : String) (b' : Bunch),
    b.filterC ⟨none, none, some g⟩ = .ok b' →
    b'.items = b.items.filter (fun kd => geomMatch g kd.2)
  | .nil => by
    intro g b' h
    have hb : Bunch.nil = b' := Except.ok.inj h
    subst hb
    rfl
  | .cons k (.ds d) rest => by
    intro g b' h
    cases hv : filterValidate ⟨none, none, some g⟩ d with
    | error e => simp [Bunch.filterC, hv] at h
    | ok keep =>
      cases hr : Bunch.filterC rest ⟨none, none, some g⟩ with
      | error e => simp [Bunch.filterC, hv, hr] at h
      | ok rest' =>
        have ih := filterC_geom_items rest g rest' hr
        have hkeep := filterValidate_geom_ok g d keep hv
        subst hkeep
        cases hgm : geomMatch g d with
        | true =>
          simp only [Bunch.filterC, hv, hgm, if_true, hr,
            Except.ok.injEq] at h
          subst h
          simp [Bunch.items, Node.items, List.filter_cons, hgm, ih]
        | false =>
          simp only [Bunch.filterC, hv, hgm, Bool.false_eq_true, if_false, hr,
            Except.ok.injEq] at h
          subst h
          simp [Bunch.items, Node.items, List.filter_cons, hgm, ih]
  | .cons k (.bunch bb) rest => by
    intro g b' h
    cases hf : Bunch.filterC bb ⟨none, none, some g⟩ with
    | error e => simp [Bunch.filterC, hf] at h
    | ok fb =>
      cases hr : Bunch.filterC rest ⟨none, none, some g⟩ with
      | error e => simp [Bunch.filterC, hf, hr] at h
      | ok rest' =>
        have ih1 := filterC_geom_items bb g fb hf
        have ih2 := filterC_geom_items rest g rest' hr
        cases fb with
        | nil =>
          simp only [Bunch.filterC, hf, hr, Except.ok.injEq] at h
          subst h
          have hbb : bb.items.filter (fun kd => geomMatch g kd.2) = [] :=
            ih1.symm
          simp [Bunch.items, Node.items, List.filter_append, hbb, ih2]
        | cons k2 n2 r2 =>
          simp only [Bunch.filterC, hf, hr, Except.ok.injEq] at h
          subst h
          simp only [Bunch.items, Node.items, List.filter_append]
          rw [← ih1, ← ih2]
          simp [Bunch.items]

/-- No character whose upper-case form spells a letter of `POINT` is one of
the stripped separator characters, so a geometry tag that upper-cases to
`POINT` is untouched by the separator-stripping translation. -/
theorem translateQN_eq_self_of_upper_point (gt : String)
    (h : upperStr gt = "POINT") : translateQN gt = gt := by
  have hdata : gt.data.map Char.toUpper = "POINT".data := congrArg String.data h
  have hfilter :
      gt.data.filter (fun c => !QUERY_NAME_TRANSLATION.contains c) =
        gt.data := by
    apply List.filter_eq_self.mpr
    intro c hc
    have hup : Char.toUpper c ∈ "POINT".data := by
      rw [← hdata]
      exact List.mem_map_of_mem _ hc
    by_contra hcon
    have hmem : c ∈ QUERY_NAME_TRANSLATION := by simpa using hcon
    have hPOINT : "POINT".data = ['P', 'O', 'I', 'N', 'T'] := rfl
    rw [hPOINT] at hup
    simp only [QUERY_NAME_TRANSLATION, List.mem_cons,
      List.not_mem_nil, or_false] at hmem
    rcases hmem with rfl | rfl | rfl | rfl | rfl | rfl <;>
      exact absurd hup (by decide)
  simp only [translateQN, hfilter]

/-- C9: filtering on a supplied geometry-type string `g` keeps exactly those
records whose `geometry_type` attribute, upper-cased, equals the normalized
(separator-stripped, upper-cased) form of `g` (first conjunct); in particular
`filter(geometry_type="Point")` returns only records whose geometry-type
attribute, normalized the same way, equals `POINT` (second conjunct). -/
theorem C9_filter_geometry_type (g : String) (b b' : Bunch)
    (h : b.filterC ⟨none, none, some g⟩ = .ok b') :
    b'.items = b.items.filter (fun kd => geomMatch g kd.2) ∧
    (g = "Point" → ∀ kd ∈ b'.items,
      ∃ gt, kd.2.fields.lookup "geometry_type" = some (.str gt) ∧
        upperStr (translateQN gt) = "POINT") := by
  have hitems := filterC_geom_items b g b' h
  refine ⟨hitems, ?_⟩
  rintro rfl kd hkd
  rw [hitems] at hkd
  have hmatch : geomMatch "Point" kd.2 = true := (List.mem_filter.mp hkd).2
  cases hl : kd.2.fields.lookup "geometry_type" with
  | none => simp [geomMatch, hl] at hmatch
  | some v =>
    cases v with
    | str gt =>
      simp only [geomMatch, hl, beq_iff_eq] at hmatch
      have hup : upperStr gt = "POINT" :=
        hmatch.trans (by decide)
      exact ⟨gt, rfl, by rw [translateQN_eq_self_of_upper_point gt hup, hup]⟩
    | num n => simp [geomMatch, hl] at hmatch
    | strList l => simp [geomMatch, hl] at hmatch
    | obj o => simp [geomMatch, hl] at hmatch

def ptDS : Dataset :=
  ⟨[("name", .str "demo.points"), ("url", .str "https://x/p.csv"),
    ("hash", .str "sha1:p"), ("filename", .str "p.csv"),
    ("geometry_type", .str "Point")]⟩

def polyDS : Dataset :=
  ⟨[("name", .str "demo.polys"), ("url", .str "https://x/q.csv"),
    ("hash", .str "sha1:q"), ("filename", .str "q.csv"),
    ("geometry_type", .str "Polygon")]⟩

def geoCatalog : Bunch :=
  .cons "points" (.ds ptDS) (.cons "polys" (.ds polyDS) .nil)

def geoFiltered : Bunch := .cons "points" (.ds ptDS) .nil

/-- C9 witness: filtering the concrete two-record catalog on `Point` keeps
exactly the point record. -/
theorem C9_witness :
    geoFiltered.items =
      geoCatalog.items.filter (fun kd => geomMatch "Point" kd.2) :=
  (C9_filter_geometry_type "Point" geoCatalog geoFiltered rfl).1
end Geodatasets
